import Mathlib

/-
Verification of the anomaly-map aggregation and evaluation pipeline of
`experiment_builder.py` (classes `ExperimentBuilder` and
`AnomalyDetectionExperiment`).

Embedding conventions:
* tensors are embedded as total functions `ℕ → ℕ → ℚ` together with explicit
  shape metadata (`height`/`width`); all per-pixel arithmetic is exact rational
  arithmetic;
* a patch of the stream carries its owning image index, its placement slice
  (`slices["1_start"] … slices["2_stop"]`) and its per-pixel anomaly score in
  patch-local coordinates (the value of `anomaly_maps_current_batch[batch_idx]`);
* the stateful per-patch loop of `AnomalyDetectionExperiment.run_experiment`
  is embedded as a fold over the flattened patch stream; the Python `assert`
  and the `UnboundLocalError` crashes are embedded as `Except.error`;
* I/O glue (progress bars, CSV writing) is dropped; the per-image statistics
  row is captured by the `aucroc` field of the finalization event.
-/

/-- One sliding-window patch of the stream consumed by
`AnomalyDetectionExperiment.run_experiment`: the owning image index
(`image_idxs[batch_idx]`), the placement slice (`slices["1_start"]` …
`slices["2_stop"]`) and the patch-local anomaly scores
(`anomaly_maps_current_batch[batch_idx]`, channel dimension already reduced). -/
structure Patch where
  imageIdx : ℕ
  start1 : ℕ
  stop1 : ℕ
  start2 : ℕ
  stop2 : ℕ
  score : ℕ → ℕ → ℚ

/-- Whether full-image pixel `(i, j)` lies in the placement slice of patch `p`
(`np.s_[start1:stop1, start2:stop2]`). -/
def inSlice (p : Patch) (i j : ℕ) : Bool :=
  decide (p.start1 ≤ i) && decide (i < p.stop1) && decide (p.start2 ≤ j) && decide (j < p.stop2)

/-- The value patch `p` contributes at full-image pixel `(i, j)`: its score at
the corresponding patch-local coordinates. -/
def contrib (p : Patch) (i j : ℕ) : ℚ :=
  p.score (i - p.start1) (j - p.start2)

/-- The list of score contributions at pixel `(i, j)` of exactly those patches
of `ps` whose slice covers `(i, j)`, in stream order. -/
def contribs (ps : List Patch) (i j : ℕ) : List ℚ :=
  (ps.filter fun p => inSlice p i j).map fun p => contrib p i j

/-- The per-image accumulator pair of `run_experiment`: `anomaly_map` and
`normalisation_map`, both created as zero tensors of the full image size. -/
structure AggState where
  height : ℕ
  width : ℕ
  anomaly_map : ℕ → ℕ → ℚ
  normalisation_map : ℕ → ℕ → ℚ

/-- `anomaly_map = torch.zeros(...)`, `normalisation_map = torch.zeros(...)`:
fresh zero accumulators of the image size. -/
def AggState.init (h w : ℕ) : AggState :=
  ⟨h, w, fun _ _ => 0, fun _ _ => 0⟩

/-- The per-patch update of `run_experiment` (lines 517-527):
`normalisation_map[current_slice] += 1` always, then the `anomaly_map` update
selected by `window_aggregation_method`:
* `"mean"`: `anomaly_map[current_slice] += patch_score`;
* `"min"`: blend `first_time_pixels * patch_score
  + (1 - first_time_pixels) * min(anomaly_map[current_slice], patch_score)`
  where `first_time_pixels = (normalisation_map[current_slice] == 1)` after the
  increment;
* `"max"`: `anomaly_map[current_slice] = max(anomaly_map[current_slice], patch_score)`;
* any other method falls through all `elif` branches: the anomaly map is untouched. -/
def applyPatch (method : String) (st : AggState) (p : Patch) : AggState :=
  let nm : ℕ → ℕ → ℚ := fun i j =>
    if inSlice p i j then st.normalisation_map i j + 1 else st.normalisation_map i j
  { st with
    normalisation_map := nm
    anomaly_map :=
      if method = "mean" then fun i j =>
        if inSlice p i j then st.anomaly_map i j + contrib p i j else st.anomaly_map i j
      else if method = "min" then fun i j =>
        if inSlice p i j then
          (if nm i j = 1 then (1 : ℚ) else 0) * contrib p i j
            + (1 - (if nm i j = 1 then (1 : ℚ) else 0))
              * min (st.anomaly_map i j) (contrib p i j)
        else st.anomaly_map i j
      else if method = "max" then fun i j =>
        if inSlice p i j then max (st.anomaly_map i j) (contrib p i j)
        else st.anomaly_map i j
      else st.anomaly_map }

/-- Accumulation of one image's patch list into fresh zero accumulators of
shape `h × w`, exactly as the per-patch loop does for the patches of a single
image. -/
def aggregate (method : String) (h w : ℕ) (ps : List Patch) : AggState :=
  ps.foldl (applyPatch method) (AggState.init h w)

/-- `AnomalyDetectionExperiment.normalise_anomaly_map`: replace zeros of the
normalisation map by 1, then divide the anomaly map elementwise. -/
def normalise_anomaly_map (anomaly_map normalisation_map : ℕ → ℕ → ℚ) : ℕ → ℕ → ℚ :=
  fun i j =>
    anomaly_map i j / (if normalisation_map i j = 0 then 1 else normalisation_map i j)

/-- The score map of a completed image after step 1 of finalization:
`normalise_anomaly_map` is applied iff the aggregation method is `"mean"`
(lines 468-469 and 535-536); for every other method the raw accumulator is the
finalized map. -/
def finalizedMap (method : String) (st : AggState) : ℕ → ℕ → ℚ :=
  if method = "mean" then normalise_anomaly_map st.anomaly_map st.normalisation_map
  else st.anomaly_map

/-- A full-resolution image/tensor: shape metadata plus pixel values (channel
dimension of size 1 elided). -/
structure Image where
  height : ℕ
  width : ℕ
  pix : ℕ → ℕ → ℚ

/-- All pixels inside the declared shape equal `v`. -/
def allPixEq (img : Image) (v : ℚ) : Bool :=
  (List.range img.height).all fun i =>
    (List.range img.width).all fun j => decide (img.pix i j = v)

/-- The flattened label contains only one class: all ones or all zeros. -/
def single_class (label : Image) : Bool :=
  allPixEq label 1 || allPixEq label 0

/-- Modelled from the spec: `get_aucroc` is imported from `misc_utils.py`,
which is not among the provided sources.  Per the spec (§4.2 AgreementEvaluator
and §7): if the flattened label contains only one class (all zeros or all
ones), AUC-ROC is undefined and a sentinel "undefined" value (NumPy NaN,
modelled as `none`) is returned instead of a fatal error; otherwise the
AUC-ROC score is computed (sklearn's `roc_auc_score`, kept abstract as the
function argument `roc_auc_score`). -/
def get_aucroc (roc_auc_score : Image → Image → ℚ) (y_true output : Image) : Option ℚ :=
  if single_class y_true then none else some (roc_auc_score y_true output)

/-- The configuration and external collaborators of one
`AnomalyDetectionExperiment` run: the recognised options plus the label
repository (`dataset.get_label_image`), the per-image full sizes
(`image_sizes`, giving `(shape[1], shape[2])`), the resize primitive
(`nn.functional.interpolate`, an external framework function kept abstract)
and sklearn's `roc_auc_score` (external, kept abstract). -/
structure Experiment where
  window_aggregation_method : String
  measure_of_anomaly : String
  save_anomaly_maps : Bool
  resize_anomaly_maps : Bool
  AD_margins : Option (ℕ × ℕ)
  get_label_image : ℕ → Image
  image_sizes : ℕ → ℕ × ℕ
  interp : Image → ℕ → ℕ → Image
  roc_auc_score : Image → Image → ℚ

/-- The `measure_of_anomaly` values recognised by
`calculate_agreement_between_anomaly_score_and_labels`. -/
def measure_supported (E : Experiment) : Prop :=
  E.measure_of_anomaly = "absolute distance" ∨ E.measure_of_anomaly = "likelihood"

instance (E : Experiment) : Decidable (measure_supported E) := by
  unfold measure_supported; infer_instance

/-- `AnomalyDetectionExperiment.calculate_agreement_between_anomaly_score_and_labels`:
for a recognised `measure_of_anomaly` the AUC-ROC (possibly the NaN sentinel)
is appended to the statistics; for any other value the local variable `aucroc`
is never assigned and the `append` raises `UnboundLocalError`. -/
def calculate_agreement (E : Experiment) (anomaly_map label_image : Image) :
    Except String (Option ℚ) :=
  if measure_supported E then
    Except.ok (get_aucroc E.roc_auc_score label_image anomaly_map)
  else Except.error "UnboundLocalError: aucroc"

/-- The margin slice `np.s_[:, m1 : H - m1, m2 : W - m2]` applied to `img`,
where `H × W` is the shape of the *anomaly map* (the code builds the slice
from `anomaly_map.shape` and applies it to both the map and the label). -/
def cropWithShape (img : Image) (m1 m2 H W : ℕ) : Image :=
  ⟨H - m1 - m1, W - m2 - m2, fun i j => img.pix (i + m1) (j + m2)⟩

/-- Everything `run_experiment` produces when one image is completed: the
image index used to fetch the label and name the saved file, the optionally
persisted map (`torch.save`), the map/label pair handed to the agreement
computation, and the statistics row (the appended `aucroc` value, `none` being
the NaN sentinel). -/
structure FinalEvent where
  image_idx : ℕ
  persisted : Option Image
  eval_map : Image
  eval_label : Image
  aucroc : Option ℚ

/-- The per-completed-image finalization of `run_experiment` (lines 465-495
and, duplicated for the last image, 533-563), in source order:
1. if the aggregation method is `"mean"`, normalise (`finalizedMap`);
2. load the ground-truth label image;
3. if `resize_anomaly_maps`, interpolate the map to the label's spatial size;
4. if `save_anomaly_maps`, persist the (uncropped) map;
5. if `AD_margins` is set, crop map and label by the margin slice built from
   the anomaly map's shape;
6. compute agreement (which appends the statistics row, and crashes on an
   unrecognised `measure_of_anomaly`). -/
def finalizeImage (E : Experiment) (img_idx : ℕ) (st : AggState) :
    Except String FinalEvent :=
  let map1 : Image := ⟨st.height, st.width, finalizedMap E.window_aggregation_method st⟩
  let label_image := E.get_label_image img_idx
  let map2 : Image :=
    if E.resize_anomaly_maps then E.interp map1 label_image.height label_image.width
    else map1
  let persisted : Option Image := if E.save_anomaly_maps then some map2 else none
  let mapLabel : Image × Image :=
    match E.AD_margins with
    | some m => (cropWithShape map2 m.1 m.2 map2.height map2.width,
                 cropWithShape label_image m.1 m.2 map2.height map2.width)
    | none => (map2, label_image)
  match calculate_agreement E mapLabel.1 mapLabel.2 with
  | Except.ok aucroc => Except.ok ⟨img_idx, persisted, mapLabel.1, mapLabel.2, aucroc⟩
  | Except.error e => Except.error e

/-- The loop state of `run_experiment`: the `num_finished_images` counter
(initialised to `-1`), the accumulators of the currently open image, and the
finalization events emitted so far. -/
structure RunState where
  num_finished_images : ℤ
  agg : AggState
  events : List FinalEvent

/-- The image-boundary block of the per-patch loop (lines 465-507): if
`current_image_idx > num_finished_images`, increment the counter, and if it is
now positive finalize the open image using label index
`current_image_idx - 1`; then create fresh zero accumulators of size
`image_sizes[current_image_idx]`.  Otherwise the state is unchanged. -/
def boundaryStep (E : Experiment) (st : RunState) (idx : ℕ) : Except String RunState :=
  if st.num_finished_images < (idx : ℤ) then
    let nf := st.num_finished_images + 1
    let evsE : Except String (List FinalEvent) :=
      if 0 < nf then
        match finalizeImage E (idx - 1) st.agg with
        | Except.ok ev => Except.ok (st.events ++ [ev])
        | Except.error e => Except.error e
      else Except.ok st.events
    match evsE with
    | Except.ok evs =>
        Except.ok ⟨nf, AggState.init (E.image_sizes idx).1 (E.image_sizes idx).2, evs⟩
    | Except.error e => Except.error e
  else Except.ok st

/-- The body of the per-patch loop of `run_experiment` (lines 459-527):
1. `assert num_finished_images <= current_image_idx` (an `AssertionError`
   aborts the run);
2. the image-boundary block (`boundaryStep`);
3. update the accumulators with the patch (`applyPatch`). -/
def processPatch (E : Experiment) (st : RunState) (p : Patch) : Except String RunState :=
  if (p.imageIdx : ℤ) < st.num_finished_images then
    Except.error "AssertionError"
  else
    match boundaryStep E st p.imageIdx with
    | Except.ok st1 =>
        Except.ok { st1 with agg := applyPatch E.window_aggregation_method st1.agg p }
    | Except.error e => Except.error e

/-- The whole per-patch aggregation loop over the flattened patch stream,
starting from `num_finished_images = -1` and no open image. -/
def runStream (E : Experiment) (ps : List Patch) : Except String RunState :=
  ps.foldlM (processPatch E) ⟨-1, AggState.init 0 0, []⟩

/-- One full pass of `run_experiment` over a data-loader split: the per-patch
loop followed by the explicit finalization of the last image (lines 533-563),
which reuses the leaked loop variables `current_image_idx`, `anomaly_map` and
`normalisation_map`; on an empty stream those variables were never assigned
and Python raises `NameError`. -/
def run_experiment_set (E : Experiment) (ps : List Patch) :
    Except String (List FinalEvent) :=
  match runStream E ps with
  | Except.error e => Except.error e
  | Except.ok st =>
    match ps.getLast? with
    | none => Except.error "NameError: current_image_idx"
    | some p =>
      match finalizeImage E p.imageIdx st.agg with
      | Except.ok ev => Except.ok (st.events ++ [ev])
      | Except.error e => Except.error e

/-- The mean over the defined values of a statistics column (lines 571-574):
NaN entries (`none`) are filtered out, then `sum / len` of the rest. -/
def mean_of_defined (values : List (Option ℚ)) : ℚ :=
  let defined := values.filterMap id
  defined.sum / defined.length

/-- `ExperimentBuilder.forward_prop_and_loss` (lines 181-193): the local
variable `loss` is assigned only for the combinations
(`"classification"`, `"cross_entropy"`) and (`"regression"`, `"L2"`); any
other task/loss combination leaves `loss` unassigned and `return out, loss`
raises `UnboundLocalError` during the first forward pass.  The model output
and the two framework loss functions are kept abstract as arguments. -/
def forward_prop_and_loss (task lossName : String) (out y : ℚ)
    (cross_entropy mse_loss : ℚ → ℚ → ℚ) : Except String (ℚ × ℚ) :=
  let lossVal : Option ℚ :=
    if task = "classification" then
      if lossName = "cross_entropy" then some (cross_entropy out y) else none
    else if task = "regression" then
      if lossName = "L2" then some (mse_loss out y) else none
    else none
  match lossVal with
  | some l => Except.ok (out, l)
  | none => Except.error "UnboundLocalError: loss"

/-- The scalar-state-plus-parameters record persisted by
`ExperimentBuilder.save_model` via `torch.save`: the `state` dict with keys
`network` (the model parameters), `current_epoch_idx`, `best_val_model_idx`
and `best_val_model_measure` (the keys `run_experiment` sets before saving). -/
structure CheckpointState where
  network : List ℚ
  current_epoch_idx : ℕ
  best_val_model_idx : ℕ
  best_val_model_measure : ℚ

/-- `os.path.join(model_save_dir, "{}_{}".format(model_save_name, model_idx))`. -/
def model_path (model_save_dir model_save_name model_idx : String) : String :=
  model_save_dir ++ "/" ++ model_save_name ++ "_" ++ model_idx

/-- `ExperimentBuilder.save_model`: set `state['network'] = self.state_dict()`
and `torch.save` the record at the derived path.  The file system is embedded
as a map from paths to checkpoint records, `torch.save`/`torch.load` as the
identity on the persisted record. -/
def save_model (fs : String → Option CheckpointState)
    (model_save_dir model_save_name model_idx : String)
    (params : List ℚ) (state : CheckpointState) : String → Option CheckpointState :=
  let state1 := { state with network := params }
  fun path => if path = model_path model_save_dir model_save_name model_idx then some state1
              else fs path

/-- `ExperimentBuilder.load_model`: `torch.load` the record at the derived
path, load `state['network']` into the model, and return
`(state['best_val_model_idx'], state['best_val_model_measure'], state)`;
`none` models the missing-file failure. -/
def load_model (fs : String → Option CheckpointState)
    (model_save_dir model_save_name model_idx : String) :
    Option (ℕ × ℚ × CheckpointState) :=
  match fs (model_path model_save_dir model_save_name model_idx) with
  | some state => some (state.best_val_model_idx, state.best_val_model_measure, state)
  | none => none

/-- `AnomalyDetectionExperiment.calculate_anomaly_maps` with
`measure_of_anomaly == "absolute distance"`: `torch.abs(outputs - targets)`
followed by the mean over the `C` channels, at one pixel. -/
def absdist_score (outputs targets : ℕ → ℕ → ℕ → ℚ) (C : ℕ) (i j : ℕ) : ℚ :=
  (∑ c ∈ Finset.range C, |outputs c i j - targets c i j|) / C

/-- Whether the aggregation loop aborted (the `assert` fired, or a
finalization crashed) on the given stream. -/
def streamAborted (E : Experiment) (ps : List Patch) : Bool :=
  match runStream E ps with
  | Except.error _ => true
  | Except.ok _ => false

/-- The current accumulator's anomaly score at pixel `(i, j)` after the
aggregation loop ran to completion (`none` if the run aborted). -/
def streamMapAt (E : Experiment) (ps : List Patch) (i j : ℕ) : Option ℚ :=
  match runStream E ps with
  | Except.ok st => some (st.agg.anomaly_map i j)
  | Except.error _ => none

/-- The shapes recorded in the last finalization event of a full pass:
`(shape of the persisted map, shape of the map handed to evaluation)`;
`none` if the pass failed or produced no event. -/
def lastEventShapes (E : Experiment) (ps : List Patch) :
    Option (Option (ℕ × ℕ) × (ℕ × ℕ)) :=
  match run_experiment_set E ps with
  | Except.ok evs =>
      evs.getLast?.map fun e =>
        (e.persisted.map fun m => (m.height, m.width),
         (e.eval_map.height, e.eval_map.width))
  | Except.error _ => none

/-- Whether, in the last finalization event of a full pass, the persisted map
could be the map handed to evaluation: a necessary condition is that their
shapes agree. -/
def lastPersistedSameShapeAsEval (E : Experiment) (ps : List Patch) : Bool :=
  match run_experiment_set E ps with
  | Except.ok evs =>
    match evs.getLast? with
    | some ev =>
      match ev.persisted with
      | some m => decide (m.height = ev.eval_map.height) && decide (m.width = ev.eval_map.width)
      | none => false
    | none => false
  | Except.error _ => false

/-- The evaluated map's value at pixel `(i, j)` in the last finalization event
of a full pass (`none` if the pass failed or produced no event). -/
def lastEventEvalAt (E : Experiment) (ps : List Patch) (i j : ℕ) : Option ℚ :=
  match run_experiment_set E ps with
  | Except.ok evs => evs.getLast?.map fun e => e.eval_map.pix i j
  | Except.error _ => none

/-- Whether a full pass over the stream completed without any error. -/
def runCompleted (E : Experiment) (ps : List Patch) : Bool :=
  match run_experiment_set E ps with
  | Except.ok _ => true
  | Except.error _ => false

/-- A fixed all-zero label image of shape `3 × 3`. -/
def zeroLabel : Image := ⟨3, 3, fun _ _ => 0⟩

/-- A minimal concrete experiment configuration used by the concrete runs:
`max` aggregation, `absolute distance` measure, no persistence, no resize,
no margins, `3 × 3` images with an all-zero label, identity interpolation and
a trivial abstract AUC function. -/
def Ecx : Experiment :=
  ⟨"max", "absolute distance", false, false, none,
   fun _ => zeroLabel, fun _ => (3, 3), fun img _ _ => img, fun _ _ => 0⟩

/-- A patch stream whose image indices go `0, 2, 1`: the third patch's index
decreases below the previously observed index `2` (it covers only pixel
`(2, 2)`, with score `5`). -/
def decreasingStream : List Patch :=
  [⟨0, 0, 2, 0, 2, fun _ _ => 1⟩,
   ⟨2, 0, 2, 0, 2, fun _ _ => 3⟩,
   ⟨1, 2, 3, 2, 3, fun _ _ => 5⟩]

/-- Like `Ecx` but with `max` aggregation, persistence enabled and margins
`(1, 1)`. -/
def EcxMargin : Experiment :=
  ⟨"max", "absolute distance", true, false, some (1, 1),
   fun _ => zeroLabel, fun _ => (3, 3), fun img _ _ => img, fun _ _ => 0⟩

/-- A single patch of image 0 covering the whole `3 × 3` image with score 5. -/
def fullPatchStream : List Patch :=
  [⟨0, 0, 3, 0, 3, fun _ _ => 5⟩]

/-- Like `Ecx` but with the unsupported aggregation method `"median"`. -/
def EcxMedian : Experiment :=
  ⟨"median", "absolute distance", false, false, none,
   fun _ => zeroLabel, fun _ => (3, 3), fun img _ _ => img, fun _ _ => 0⟩

/-- Two patches of image 0 overlapping at pixel `(0, 0)` with scores 1 and 3. -/
def twoPatchStream : List Patch :=
  [⟨0, 0, 1, 0, 1, fun _ _ => 1⟩,
   ⟨0, 0, 1, 0, 2, fun _ _ => 3⟩]

/-- Three patches of image 0 all covering pixel `(0, 0)` with scores 5, 2, 8. -/
def threePatchStream : List Patch :=
  [⟨0, 0, 1, 0, 1, fun _ _ => 5⟩,
   ⟨0, 0, 1, 0, 1, fun _ _ => 2⟩,
   ⟨0, 0, 1, 0, 1, fun _ _ => 8⟩]

/-- A single patch of image 0 covering pixel `(0, 0)` with negative score -4. -/
def negPatchStream : List Patch :=
  [⟨0, 0, 1, 0, 1, fun _ _ => -4⟩]

/-- A two-image stream: one patch of image 0, then one patch of image 1. -/
def twoImageStream : List Patch :=
  [⟨0, 0, 2, 0, 2, fun _ _ => 1⟩,
   ⟨1, 0, 2, 0, 2, fun _ _ => 2⟩]

/-- The last patch of `twoImageStream`. -/
def lastOfTwoImageStream : Patch := ⟨1, 0, 2, 0, 2, fun _ _ => 2⟩

/-- An all-ones label image of shape `2 × 2` (a degenerate single-class
label). -/
def onesLabel : Image := ⟨2, 2, fun _ _ => 1⟩

/-- Like `Ecx` but with the unsupported `measure_of_anomaly` value
`"mahalanobis"`. -/
def EcxBadMeasure : Experiment :=
  ⟨"mean", "mahalanobis", false, false, none,
   fun _ => zeroLabel, fun _ => (3, 3), fun img _ _ => img, fun _ _ => 0⟩

lemma contribs_nil (i j : ℕ) : contribs [] i j = [] := rfl

lemma contribs_cons (p : Patch) (ps : List Patch) (i j : ℕ) :
    contribs (p :: ps) i j =
      if inSlice p i j then contrib p i j :: contribs ps i j else contribs ps i j := by
  by_cases h : inSlice p i j <;> simp [contribs, List.filter_cons, h]

lemma applyPatch_height (method : String) (st : AggState) (p : Patch) :
    (applyPatch method st p).height = st.height := rfl

lemma applyPatch_width (method : String) (st : AggState) (p : Patch) :
    (applyPatch method st p).width = st.width := rfl

lemma applyPatch_nm (method : String) (st : AggState) (p : Patch) (i j : ℕ) :
    (applyPatch method st p).normalisation_map i j =
      if inSlice p i j then st.normalisation_map i j + 1 else st.normalisation_map i j := rfl

lemma norm_foldl (method : String) :
    ∀ (ps : List Patch) (st : AggState) (i j : ℕ),
      (ps.foldl (applyPatch method) st).normalisation_map i j
        = st.normalisation_map i j + (contribs ps i j).length := by
  intro ps
  induction ps with
  | nil => intro st i j; simp [contribs]
  | cons p ps ih =>
    intro st i j
    rw [List.foldl_cons, ih, contribs_cons]
    by_cases h : inSlice p i j
    · simp [applyPatch_nm, h]; ring
    · simp [applyPatch_nm, h]

lemma mean_foldl :
    ∀ (ps : List Patch) (st : AggState) (i j : ℕ),
      (ps.foldl (applyPatch "mean") st).anomaly_map i j
        = st.anomaly_map i j + (contribs ps i j).sum := by
  intro ps
  induction ps with
  | nil => intro st i j; simp [contribs]
  | cons p ps ih =>
    intro st i j
    rw [List.foldl_cons, ih, contribs_cons]
    by_cases h : inSlice p i j
    · simp [applyPatch, h]; ring
    · simp [applyPatch, h]

lemma max_foldl :
    ∀ (ps : List Patch) (st : AggState) (i j : ℕ),
      (ps.foldl (applyPatch "max") st).anomaly_map i j
        = (contribs ps i j).foldl max (st.anomaly_map i j) := by
  intro ps
  induction ps with
  | nil => intro st i j; simp [contribs]
  | cons p ps ih =>
    intro st i j
    rw [List.foldl_cons, ih, contribs_cons]
    by_cases h : inSlice p i j
    · simp [applyPatch, h]
    · simp [applyPatch, h]

lemma min_foldl_started :
    ∀ (ps : List Patch) (st : AggState) (i j : ℕ), 1 ≤ st.normalisation_map i j →
      (ps.foldl (applyPatch "min") st).anomaly_map i j
        = (contribs ps i j).foldl min (st.anomaly_map i j) := by
  intro ps
  induction ps with
  | nil => intro st i j _; simp [contribs]
  | cons p ps ih =>
    intro st i j hst
    rw [List.foldl_cons, contribs_cons]
    by_cases h : inSlice p i j
    · have hne : ¬ (st.normalisation_map i j + 1 = 1) := by intro hq; linarith
      have hnm : 1 ≤ (applyPatch "min" st p).normalisation_map i j := by
        rw [applyPatch_nm]; simp [h]; linarith
      rw [ih _ i j hnm]
      simp [applyPatch, h, hne]
    · have hnm : 1 ≤ (applyPatch "min" st p).normalisation_map i j := by
        rw [applyPatch_nm]; simp [h]; linarith
      rw [ih _ i j hnm]
      simp [applyPatch, h]

lemma min_foldl_fresh :
    ∀ (ps : List Patch) (st : AggState) (i j : ℕ), st.normalisation_map i j = 0 →
      (contribs ps i j = [] →
        (ps.foldl (applyPatch "min") st).anomaly_map i j = st.anomaly_map i j)
      ∧ (∀ c cs, contribs ps i j = c :: cs →
        (ps.foldl (applyPatch "min") st).anomaly_map i j = cs.foldl min c) := by
  intro ps
  induction ps with
  | nil =>
    intro st i j _
    exact ⟨fun _ => rfl, fun c cs hc => by simp [contribs] at hc⟩
  | cons p ps ih =>
    intro st i j hst
    rw [contribs_cons]
    by_cases h : inSlice p i j
    · simp only [h, if_true]
      constructor
      · intro hc; exact absurd hc (List.cons_ne_nil _ _)
      · intro c cs hc
        obtain ⟨hc1, hc2⟩ := List.cons.injEq .. ▸ hc
        have hone : (applyPatch "min" st p).normalisation_map i j = 1 := by
          rw [applyPatch_nm]; simp [h, hst]
        have hval : (applyPatch "min" st p).anomaly_map i j = contrib p i j := by
          simp [applyPatch, h, hst]
        rw [List.foldl_cons, min_foldl_started ps _ i j (le_of_eq hone.symm), hval, ← hc1, ← hc2]
    · simp only [h, if_false]
      have hz : (applyPatch "min" st p).normalisation_map i j = 0 := by
        rw [applyPatch_nm]; simp [h, hst]
      have hval : (applyPatch "min" st p).anomaly_map i j = st.anomaly_map i j := by
        simp [applyPatch, h]
      obtain ⟨ih1, ih2⟩ := ih (applyPatch "min" st p) i j hz
      exact ⟨fun hc => by rw [List.foldl_cons, ih1 hc, hval],
             fun c cs hc => by rw [List.foldl_cons, ih2 c cs hc]⟩

lemma foldl_max_of_le : ∀ (l : List ℚ) (a : ℚ), (∀ x ∈ l, x ≤ a) → l.foldl max a = a := by
  intro l
  induction l with
  | nil => intro a _; rfl
  | cons x l ih =>
    intro a hle
    rw [List.foldl_cons, max_eq_left (hle x (List.mem_cons_self x l))]
    exact ih a fun y hy => hle y (List.mem_cons_of_mem x hy)

/-- Claim C2: with aggregation method `mean`, after finalization every pixel
covered by at least one patch holds the sum of the scores of exactly the
patches covering it divided by its coverage count, and every pixel covered by
no patch holds 0 (the zero coverage entry is substituted by 1 before the
division). -/
theorem C2_mean_aggregation (h w : ℕ) (ps : List Patch) (i j : ℕ) :
    (0 < (contribs ps i j).length →
      finalizedMap "mean" (aggregate "mean" h w ps) i j
        = (contribs ps i j).sum / ((contribs ps i j).length : ℚ))
    ∧ ((contribs ps i j).length = 0 →
      finalizedMap "mean" (aggregate "mean" h w ps) i j = 0) := by
  have ham : (aggregate "mean" h w ps).anomaly_map i j = (contribs ps i j).sum := by
    simpa [aggregate, AggState.init] using mean_foldl ps (AggState.init h w) i j
  have hnm : (aggregate "mean" h w ps).normalisation_map i j
      = ((contribs ps i j).length : ℚ) := by
    simpa [aggregate, AggState.init] using norm_foldl "mean" ps (AggState.init h w) i j
  constructor
  · intro hpos
    have hne : ((contribs ps i j).length : ℚ) ≠ 0 :=
      Nat.cast_ne_zero.mpr (Nat.pos_iff_ne_zero.mp hpos)
    show normalise_anomaly_map (aggregate "mean" h w ps).anomaly_map
        (aggregate "mean" h w ps).normalisation_map i j
      = (contribs ps i j).sum / ((contribs ps i j).length : ℚ)
    unfold normalise_anomaly_map
    rw [ham, hnm, if_neg hne]
  · intro hzero
    have hnil : contribs ps i j = [] := List.length_eq_zero.mp hzero
    show normalise_anomaly_map (aggregate "mean" h w ps).anomaly_map
        (aggregate "mean" h w ps).normalisation_map i j = 0
    unfold normalise_anomaly_map
    rw [ham, hnm, hnil]
    simp

/-- Witness for C2: two patches overlapping at pixel `(0, 0)` with scores 1
and 3 finalize to `(1 + 3) / 2 = 2` there. -/
theorem C2_mean_aggregation_witness :
    0 < (contribs twoPatchStream 0 0).length ∧
      finalizedMap "mean" (aggregate "mean" 3 3 twoPatchStream) 0 0 = 2 := by
  refine ⟨by decide, ?_⟩
  have h := (C2_mean_aggregation 3 3 twoPatchStream 0 0).1 (by decide)
  have hc : contribs twoPatchStream 0 0 = [1, 3] := by decide
  rw [h, hc]
  norm_num

/-- Claim C3: with aggregation method `min`, every pixel covered by at least
one patch finalizes to the elementwise minimum of the scores of exactly the
patches covering it (the first touching patch's score is assigned directly via
the coverage-count first-touch test, every later one combined by minimum). -/
theorem C3_min_aggregation (h w : ℕ) (ps : List Patch) (i j : ℕ) (c : ℚ) (cs : List ℚ)
    (hc : contribs ps i j = c :: cs) :
    finalizedMap "min" (aggregate "min" h w ps) i j = cs.foldl min c := by
  have hfresh := (min_foldl_fresh ps (AggState.init h w) i j rfl).2 c cs hc
  simpa [finalizedMap, aggregate] using hfresh

/-- Witness for C3: three overlapping contributions `5, 2, 8` at pixel
`(0, 0)` finalize to `2`. -/
theorem C3_min_aggregation_witness :
    contribs threePatchStream 0 0 = [5, 2, 8] ∧
      finalizedMap "min" (aggregate "min" 3 3 threePatchStream) 0 0 = 2 := by
  refine ⟨by decide, ?_⟩
  have h := C3_min_aggregation 3 3 threePatchStream 0 0 5 [2, 8] (by decide)
  rw [h]; decide

/-- Claim C4: with aggregation method `max`, every pixel covered by at least
one patch whose scores are all non-negative (the program's anomaly scores are
non-negative, see `absdist_score_nonneg`) finalizes to the elementwise maximum
of the scores of exactly the patches covering it, and every pixel with zero
coverage stays at the neutral value 0. -/
theorem C4_max_aggregation (h w : ℕ) (ps : List Patch) (i j : ℕ) :
    (∀ c cs, contribs ps i j = c :: cs → (∀ x ∈ contribs ps i j, 0 ≤ x) →
      finalizedMap "max" (aggregate "max" h w ps) i j = cs.foldl max c)
    ∧ (contribs ps i j = [] →
      finalizedMap "max" (aggregate "max" h w ps) i j = 0) := by
  have hmax := max_foldl ps (AggState.init h w) i j
  simp [AggState.init] at hmax
  constructor
  · intro c cs hc hnn
    have h0c : (0 : ℚ) ≤ c := hnn c (by rw [hc]; exact List.mem_cons_self _ _)
    have : finalizedMap "max" (aggregate "max" h w ps) i j = (c :: cs).foldl max 0 := by
      simpa [finalizedMap, aggregate, hc] using hmax
    rw [this, List.foldl_cons, max_eq_right h0c]
  · intro hc
    simpa [finalizedMap, aggregate, hc] using hmax

/-- Witness for C4: three overlapping non-negative contributions `5, 2, 8` at
pixel `(0, 0)` finalize to `8`, and the uncovered pixel `(2, 2)` stays 0. -/
theorem C4_max_aggregation_witness :
    contribs threePatchStream 0 0 = [5, 2, 8] ∧
      finalizedMap "max" (aggregate "max" 3 3 threePatchStream) 0 0 = 8 ∧
      finalizedMap "max" (aggregate "max" 3 3 threePatchStream) 2 2 = 0 := by
  refine ⟨by decide, ?_, ?_⟩
  · have h := (C4_max_aggregation 3 3 threePatchStream 0 0).1 5 [2, 8] (by decide) (by decide)
    rw [h]; decide
  · exact (C4_max_aggregation 3 3 threePatchStream 2 2).2 (by decide)

/-- Claim C10: because the score accumulator is initialized to all zeros, with
aggregation method `max` every pixel finalizes to the maximum of 0 and the
contributing patch scores; in particular a pixel all of whose contributions
are negative finalizes to 0, not to the (negative) maximum of its
contributions. -/
theorem C10_max_zero_clamp (h w : ℕ) (ps : List Patch) (i j : ℕ) :
    finalizedMap "max" (aggregate "max" h w ps) i j = (contribs ps i j).foldl max 0
    ∧ ((∀ x ∈ contribs ps i j, x < 0) →
      finalizedMap "max" (aggregate "max" h w ps) i j = 0) := by
  have hmax : (aggregate "max" h w ps).anomaly_map i j = (contribs ps i j).foldl max 0 := by
    simpa [aggregate, AggState.init] using max_foldl ps (AggState.init h w) i j
  constructor
  · exact hmax
  · intro hneg
    have hz : (contribs ps i j).foldl max 0 = 0 :=
      foldl_max_of_le _ 0 fun x hx => le_of_lt (hneg x hx)
    show (aggregate "max" h w ps).anomaly_map i j = 0
    rw [hmax, hz]

/-- Witness for C10: a single covering patch with negative score `-4`
finalizes to 0 at pixel `(0, 0)`, not to `-4`. -/
theorem C10_max_zero_clamp_witness :
    (∀ x ∈ contribs negPatchStream 0 0, x < 0) ∧
      finalizedMap "max" (aggregate "max" 3 3 negPatchStream) 0 0 = 0 := by
  refine ⟨by decide, ?_⟩
  exact (C10_max_zero_clamp 3 3 negPatchStream 0 0).2 (by decide)

/-- The anomaly scores the pipeline feeds to aggregation are non-negative:
with `measure_of_anomaly == "absolute distance"` each patch score is a channel
mean of absolute differences. -/
lemma absdist_score_nonneg (outputs targets : ℕ → ℕ → ℕ → ℚ) (C i j : ℕ) :
    0 ≤ absdist_score outputs targets C i j := by
  unfold absdist_score
  apply div_nonneg
  · exact Finset.sum_nonneg fun c _ => abs_nonneg _
  · exact_mod_cast Nat.zero_le C

lemma calculate_agreement_ok (E : Experiment) (hm : measure_supported E)
    (anomaly_map label_image : Image) :
    calculate_agreement E anomaly_map label_image
      = Except.ok (get_aucroc E.roc_auc_score label_image anomaly_map) := by
  unfold calculate_agreement
  rw [if_pos hm]

lemma calculate_agreement_error (E : Experiment) (anomaly_map label_image : Image)
    (e : String) (h : calculate_agreement E anomaly_map label_image = Except.error e) :
    e = "UnboundLocalError: aucroc" := by
  unfold calculate_agreement at h
  by_cases hm : measure_supported E
  · rw [if_pos hm] at h; cases h
  · rw [if_neg hm] at h
    injection h with h'
    exact h'.symm

lemma finalizeImage_ok (E : Experiment) (hm : measure_supported E) (k : ℕ) (st : AggState) :
    ∃ ev : FinalEvent, finalizeImage E k st = Except.ok ev ∧ ev.image_idx = k := by
  simp only [finalizeImage]
  rw [calculate_agreement_ok E hm]
  exact ⟨_, rfl, rfl⟩

lemma finalizeImage_error (E : Experiment) (k : ℕ) (st : AggState) (e : String)
    (h : finalizeImage E k st = Except.error e) : e = "UnboundLocalError: aucroc" := by
  simp only [finalizeImage] at h
  by_cases hm : measure_supported E
  · rw [calculate_agreement_ok E hm] at h; cases h
  · unfold calculate_agreement at h
    rw [if_neg hm] at h
    injection h with h'
    exact h'.symm

lemma boundaryStep_skip (E : Experiment) (st : RunState) (idx : ℕ)
    (hnb : ¬ st.num_finished_images < (idx : ℤ)) :
    boundaryStep E st idx = Except.ok st := by
  simp only [boundaryStep]
  rw [if_neg hnb]

lemma boundaryStep_ok (E : Experiment) (st : RunState) (idx : ℕ)
    (hm : measure_supported E) (hb : st.num_finished_images < (idx : ℤ)) :
    ∃ evs, boundaryStep E st idx
        = Except.ok ⟨st.num_finished_images + 1,
            AggState.init (E.image_sizes idx).1 (E.image_sizes idx).2, evs⟩
      ∧ (0 < st.num_finished_images + 1 →
          ∃ ev, finalizeImage E (idx - 1) st.agg = Except.ok ev
            ∧ evs = st.events ++ [ev] ∧ ev.image_idx = idx - 1)
      ∧ (¬ 0 < st.num_finished_images + 1 → evs = st.events) := by
  by_cases hz : (0 : ℤ) < st.num_finished_images + 1
  · obtain ⟨ev, hev, hevidx⟩ := finalizeImage_ok E hm (idx - 1) st.agg
    refine ⟨st.events ++ [ev], ?_, fun _ => ⟨ev, hev, rfl, hevidx⟩, fun hno => absurd hz hno⟩
    simp only [boundaryStep]
    rw [if_pos hb, if_pos hz, hev]
  · refine ⟨st.events, ?_, fun hyes => absurd hyes hz, fun _ => rfl⟩
    simp only [boundaryStep]
    rw [if_pos hb, if_neg hz]

lemma boundaryStep_error (E : Experiment) (st : RunState) (idx : ℕ) (e : String)
    (h : boundaryStep E st idx = Except.error e) : e = "UnboundLocalError: aucroc" := by
  simp only [boundaryStep] at h
  by_cases hb : st.num_finished_images < (idx : ℤ)
  · rw [if_pos hb] at h
    by_cases hz : (0 : ℤ) < st.num_finished_images + 1
    · rw [if_pos hz] at h
      cases hfin : finalizeImage E (idx - 1) st.agg with
      | ok ev => rw [hfin] at h; cases h
      | error e2 =>
        rw [hfin] at h
        injection h with h'
        exact h' ▸ finalizeImage_error E (idx - 1) st.agg e2 hfin
    · rw [if_neg hz] at h; cases h
  · rw [if_neg hb] at h; cases h

lemma processPatch_not_boundary (E : Experiment) (st : RunState) (p : Patch)
    (hge : ¬ ((p.imageIdx : ℤ) < st.num_finished_images))
    (hnb : ¬ st.num_finished_images < (p.imageIdx : ℤ)) :
    processPatch E st p
      = Except.ok { st with agg := applyPatch E.window_aggregation_method st.agg p } := by
  unfold processPatch
  rw [if_neg hge, boundaryStep_skip E st p.imageIdx hnb]

/-- Claim C9: saving a checkpoint and loading it back restores exactly the
saved scalar state (best-epoch index, best-epoch measure, current epoch
index) and the identical model parameter values: save followed by load is the
identity on the persisted state. -/
theorem C9_checkpoint_roundtrip (fs : String → Option CheckpointState)
    (model_save_dir model_save_name model_idx : String)
    (params : List ℚ) (state : CheckpointState) :
    load_model (save_model fs model_save_dir model_save_name model_idx params state)
        model_save_dir model_save_name model_idx
      = some (state.best_val_model_idx, state.best_val_model_measure,
              { state with network := params }) := by
  unfold load_model save_model
  simp

/-- Claim C6: a finalized image whose (possibly cropped) label contains only
one class yields the sentinel "undefined" value (`none`, NumPy NaN) from the
agreement computation rather than a fatal error; mean agreement values are
computed over only the defined values (inserting an undefined value changes
nothing), and per-image AUCs `[0.9, undefined, 0.7]` average to `0.8`. -/
theorem C6_auc_undefined (E : Experiment) (anomaly_map label_image : Image)
    (hm : measure_supported E)
    (hsingle : allPixEq label_image 1 = true ∨ allPixEq label_image 0 = true) :
    calculate_agreement E anomaly_map label_image = Except.ok none
    ∧ (∀ l1 l2 : List (Option ℚ),
        mean_of_defined (l1 ++ none :: l2) = mean_of_defined (l1 ++ l2))
    ∧ mean_of_defined [some (9/10), none, some (7/10)] = 4/5 := by
  refine ⟨?_, ?_, ?_⟩
  · rw [calculate_agreement_ok E hm]
    unfold get_aucroc
    have hsc : single_class label_image = true := by
      unfold single_class
      rcases hsingle with h | h <;> simp [h]
    rw [if_pos hsc]
  · intro l1 l2
    unfold mean_of_defined
    simp
  · unfold mean_of_defined
    have hfm : ([some ((9 : ℚ)/10), none, some ((7 : ℚ)/10)] : List (Option ℚ)).filterMap id
        = [(9 : ℚ)/10, (7 : ℚ)/10] := rfl
    rw [hfm]
    norm_num [List.sum_cons, List.sum_nil]

/-- Witness for C6: with the supported measure `"absolute distance"` and the
all-ones label, the agreement computation returns the undefined sentinel. -/
theorem C6_auc_undefined_witness :
    measure_supported Ecx ∧ allPixEq onesLabel 1 = true ∧
      calculate_agreement Ecx zeroLabel onesLabel = Except.ok none := by
  refine ⟨Or.inl rfl, by decide, ?_⟩
  exact (C6_auc_undefined Ecx zeroLabel onesLabel (Or.inl rfl) (Or.inl (by decide))).1

/-- Counterexample for C8: with the unsupported aggregation method
`"median"`, no fatal configuration error is reported at any time: the full
pass over a stream containing a patch with score 5 completes without any
error, the patch is silently ignored, and the finalized map is 0 at the
patch's pixel — refuting "a fatal configuration error is reported at
configuration time, before any computation begins". -/
theorem C8_counterexample :
    runCompleted EcxMedian fullPatchStream = true
    ∧ lastEventEvalAt EcxMedian fullPatchStream 0 0 = some 0 := by
  constructor
  · decide
  · decide

/-- Amended claim C8: there is no configuration-time validation.  An
aggregation method outside {mean, min, max} is silently ignored (the anomaly
map is never updated); an unsupported task/loss combination raises an
unbound-local error at the first forward/loss computation; an unsupported
`measure_of_anomaly` raises an unbound-local error at the first agreement
computation. -/
theorem C8_amended_errors :
    (∀ (method : String) (st : AggState) (p : Patch),
      ¬ (method = "mean" ∨ method = "min" ∨ method = "max") →
      (applyPatch method st p).anomaly_map = st.anomaly_map)
    ∧ (∀ (task lossName : String) (out y : ℚ) (ce l2 : ℚ → ℚ → ℚ),
      ¬ ((task = "classification" ∧ lossName = "cross_entropy")
         ∨ (task = "regression" ∧ lossName = "L2")) →
      forward_prop_and_loss task lossName out y ce l2
        = Except.error "UnboundLocalError: loss")
    ∧ (∀ (E : Experiment) (anomaly_map label_image : Image),
      ¬ measure_supported E →
      calculate_agreement E anomaly_map label_image
        = Except.error "UnboundLocalError: aucroc") := by
  refine ⟨?_, ?_, ?_⟩
  · intro method st p hbad
    push_neg at hbad
    obtain ⟨h1, h2, h3⟩ := hbad
    simp [applyPatch, h1, h2, h3]
  · intro task lossName out y ce l2 hbad
    unfold forward_prop_and_loss
    by_cases h1 : task = "classification"
    · have h2 : ¬ (lossName = "cross_entropy") := fun hc => hbad (Or.inl ⟨h1, hc⟩)
      simp [h1, h2]
    · by_cases h3 : task = "regression"
      · have h4 : ¬ (lossName = "L2") := fun hc => hbad (Or.inr ⟨h3, hc⟩)
        simp [h1, h3, h4]
      · simp [h1, h3]
  · intro E am li hbad
    unfold calculate_agreement
    rw [if_neg hbad]

/-- Witness for the amended C8 at concrete unsupported configurations:
aggregation method `"median"`, task `"classification"` with loss `"L2"`, and
`measure_of_anomaly` `"mahalanobis"`. -/
theorem C8_amended_errors_witness :
    (¬ (("median" : String) = "mean" ∨ ("median" : String) = "min"
        ∨ ("median" : String) = "max")
      ∧ (applyPatch "median" (AggState.init 3 3) ⟨0, 0, 1, 0, 1, fun _ _ => 5⟩).anomaly_map
          = (AggState.init 3 3).anomaly_map)
    ∧ (¬ ((("classification" : String) = "classification" ∧ ("L2" : String) = "cross_entropy")
          ∨ (("classification" : String) = "regression" ∧ ("L2" : String) = "L2"))
      ∧ forward_prop_and_loss "classification" "L2" 0 0 (fun _ _ => 0) (fun _ _ => 0)
          = Except.error "UnboundLocalError: loss")
    ∧ (¬ measure_supported EcxBadMeasure
      ∧ calculate_agreement EcxBadMeasure zeroLabel zeroLabel
          = Except.error "UnboundLocalError: aucroc") :=
  ⟨⟨by decide, C8_amended_errors.1 "median" (AggState.init 3 3) ⟨0, 0, 1, 0, 1, fun _ _ => 5⟩ (by decide)⟩,
   ⟨by decide, C8_amended_errors.2.1 "classification" "L2" 0 0 (fun _ _ => 0) (fun _ _ => 0) (by decide)⟩,
   ⟨by decide, C8_amended_errors.2.2 EcxBadMeasure zeroLabel zeroLabel (by decide)⟩⟩

/-- Counterexample for C1: on the stream with image indices `0, 2, 1` the
third patch's image index (1) is strictly smaller than the index 2 observed
earlier, yet the aggregation loop does not abort — the run completes and the
late patch's score 5 is accumulated at pixel `(2, 2)` of the open map,
refuting "the run aborts with an assertion error before that patch's scores
are accumulated". -/
theorem C1_counterexample :
    decreasingStream.map Patch.imageIdx = [0, 2, 1]
    ∧ streamAborted Ecx decreasingStream = false
    ∧ streamMapAt Ecx decreasingStream 2 2 = some 5 := by
  refine ⟨by decide, by decide, by decide⟩

/-- Amended claim C1: the runtime check aborts the run on a patch exactly
when the patch's image index is strictly smaller than the
`num_finished_images` counter.  Since the counter grows by only 1 per
boundary, an image-index decrease that stays at or above the counter (possible
only after the index previously jumped by at least 2) passes the assertion
and the patch is accumulated into the currently open map. -/
theorem C1_amended_abort_iff (E : Experiment) (st : RunState) (p : Patch) :
    processPatch E st p = Except.error "AssertionError"
      ↔ (p.imageIdx : ℤ) < st.num_finished_images := by
  constructor
  · intro h
    by_contra hge
    unfold processPatch at h
    rw [if_neg hge] at h
    cases hb : boundaryStep E st p.imageIdx with
    | ok st1 => rw [hb] at h; cases h
    | error e =>
      rw [hb] at h
      injection h with h'
      have := boundaryStep_error E st p.imageIdx e hb
      rw [this] at h'
      exact absurd h' (by decide)
  · intro h
    unfold processPatch
    rw [if_pos h]

/-- Witness for the amended C1: with the finished-image counter at 2, a patch
of image index 1 aborts the run with the assertion error. -/
theorem C1_amended_abort_iff_witness :
    processPatch Ecx ⟨2, AggState.init 3 3, []⟩ ⟨1, 0, 1, 0, 1, fun _ _ => 0⟩
      = Except.error "AssertionError" :=
  (C1_amended_abort_iff Ecx ⟨2, AggState.init 3 3, []⟩ ⟨1, 0, 1, 0, 1, fun _ _ => 0⟩).mpr
    (by decide)

/-- Counterexample for C5: with margins `(1, 1)` configured and persistence
enabled, a full pass over a single whole-image patch of a `3 × 3` image
persists a map of shape `3 × 3` while the margin-cropped map handed to
evaluation has shape `1 × 1`: the persisted map is the pre-crop map, not the
margin-cropped map produced by the crop step, refuting the claim's
consequence (equality of two images implies equality of their shapes). -/
theorem C5_counterexample :
    lastEventShapes EcxMargin fullPatchStream = some (some (3, 3), (1, 1))
    ∧ lastPersistedSameShapeAsEval EcxMargin fullPatchStream = false
    ∧ ∃ evs ev m, run_experiment_set EcxMargin fullPatchStream = Except.ok evs
        ∧ evs.getLast? = some ev ∧ ev.persisted = some m ∧ ¬ (m = ev.eval_map) := by
  refine ⟨by decide, by decide, ?_⟩
  refine ⟨_, _, _, rfl, rfl, rfl, fun hEq => ?_⟩
  have hh := congrArg Image.height hEq
  exact absurd hh (by decide)

/-- Amended claim C5: finalization applies, in order: (1) mean-normalization
if the method is `mean`, (2) optional resize, (3) optional persistence,
(4) margin crop of map and label, (5) agreement evaluation — persistence
precedes the crop, so when a margin is configured and persistence is enabled
the persisted map is the pre-crop (post-resize) map, and the evaluated map and
label are the crops of it, built from its shape. -/
theorem C5_amended_order (E : Experiment) (img_idx m1 m2 : ℕ) (st : AggState)
    (hsave : E.save_anomaly_maps = true)
    (hmar : E.AD_margins = some (m1, m2))
    (hm : measure_supported E) :
    ∃ ev pre, finalizeImage E img_idx st = Except.ok ev
      ∧ ev.persisted = some pre
      ∧ ev.eval_map = cropWithShape pre m1 m2 pre.height pre.width
      ∧ ev.eval_label = cropWithShape (E.get_label_image img_idx) m1 m2 pre.height pre.width := by
  simp only [finalizeImage, hmar, hsave, if_true]
  rw [calculate_agreement_ok E hm]
  exact ⟨_, _, rfl, rfl, rfl, rfl⟩

/-- Witness for the amended C5 at the concrete margin configuration. -/
theorem C5_amended_order_witness :
    EcxMargin.save_anomaly_maps = true ∧ EcxMargin.AD_margins = some (1, 1)
    ∧ measure_supported EcxMargin
    ∧ ∃ ev pre, finalizeImage EcxMargin 0 (AggState.init 3 3) = Except.ok ev
        ∧ ev.persisted = some pre
        ∧ ev.eval_map = cropWithShape pre 1 1 pre.height pre.width
        ∧ ev.eval_label
            = cropWithShape (EcxMargin.get_label_image 0) 1 1 pre.height pre.width :=
  ⟨rfl, rfl, Or.inl rfl,
   C5_amended_order EcxMargin 0 1 1 (AggState.init 3 3) rfl rfl (Or.inl rfl)⟩

lemma run_aux (E : Experiment) (hm : measure_supported E) :
    ∀ (ps : List Patch) (st : RunState) (c : ℕ),
      st.num_finished_images ≤ (c : ℤ) →
      (∀ e ∈ st.events, e.image_idx < c) →
      List.Chain' (· ≤ ·) (c :: ps.map Patch.imageIdx) →
      ∃ st', ps.foldlM (processPatch E) st = Except.ok st'
        ∧ st'.num_finished_images ≤ (((ps.map Patch.imageIdx).getLastD c : ℕ) : ℤ)
        ∧ ∀ e ∈ st'.events, e.image_idx < (ps.map Patch.imageIdx).getLastD c := by
  intro ps
  induction ps with
  | nil =>
    intro st c h1 h2 _
    exact ⟨st, rfl, by simpa using h1, by simpa using h2⟩
  | cons p ps ih =>
    intro st c h1 h2 hchain
    have hchain2 : List.Chain' (· ≤ ·) (c :: p.imageIdx :: ps.map Patch.imageIdx) := by
      simpa using hchain
    have hci : c ≤ p.imageIdx := (List.chain'_cons.mp hchain2).1
    have hchain' : List.Chain' (· ≤ ·) (p.imageIdx :: ps.map Patch.imageIdx) :=
      (List.chain'_cons.mp hchain2).2
    have hle : st.num_finished_images ≤ (p.imageIdx : ℤ) :=
      le_trans h1 (by exact_mod_cast hci)
    have hna : ¬ ((p.imageIdx : ℤ) < st.num_finished_images) := not_lt.mpr hle
    have hgoal : ((p :: ps).map Patch.imageIdx).getLastD c
        = (ps.map Patch.imageIdx).getLastD p.imageIdx := by
      rw [List.map_cons]
      exact List.getLastD_cons c p.imageIdx (ps.map Patch.imageIdx)
    by_cases hb : st.num_finished_images < (p.imageIdx : ℤ)
    · obtain ⟨evs, hbs, hpos, hnopos⟩ := boundaryStep_ok E st p.imageIdx hm hb
      have hevall : ∀ e ∈ evs, e.image_idx < p.imageIdx := by
        by_cases hz : (0 : ℤ) < st.num_finished_images + 1
        · obtain ⟨ev, _, hevs, hevidx⟩ := hpos hz
          intro e he
          rw [hevs] at he
          rcases List.mem_append.mp he with hold | hnew
          · exact lt_of_lt_of_le (h2 e hold) hci
          · have : e = ev := by simpa using hnew
            have hidxpos : 1 ≤ p.imageIdx := by
              have h0 : (0 : ℤ) ≤ st.num_finished_images := by linarith
              have : (0 : ℤ) < (p.imageIdx : ℤ) := lt_of_le_of_lt h0 hb
              exact_mod_cast this
            rw [this, hevidx]
            omega
        · intro e he
          rw [hnopos hz] at he
          exact lt_of_lt_of_le (h2 e he) hci
      have hstep : processPatch E st p = Except.ok
          { num_finished_images := st.num_finished_images + 1,
            agg := applyPatch E.window_aggregation_method
              (AggState.init (E.image_sizes p.imageIdx).1 (E.image_sizes p.imageIdx).2) p,
            events := evs } := by
        unfold processPatch
        rw [if_neg hna, hbs]
      obtain ⟨st', hfold, hc1, hc2⟩ := ih
        { num_finished_images := st.num_finished_images + 1,
          agg := applyPatch E.window_aggregation_method
            (AggState.init (E.image_sizes p.imageIdx).1 (E.image_sizes p.imageIdx).2) p,
          events := evs }
        p.imageIdx (by exact Int.add_one_le_iff.mpr hb) hevall hchain'
      refine ⟨st', ?_, ?_, ?_⟩
      · rw [List.foldlM_cons, hstep]
        simpa using hfold
      · rw [hgoal]; exact hc1
      · rw [hgoal]; exact hc2
    · have hstep := processPatch_not_boundary E st p hna hb
      obtain ⟨st', hfold, hc1, hc2⟩ := ih
        { st with agg := applyPatch E.window_aggregation_method st.agg p }
        p.imageIdx hle (fun e he => lt_of_lt_of_le (h2 e he) hci) hchain'
      refine ⟨st', ?_, ?_, ?_⟩
      · rw [List.foldlM_cons, hstep]
        simpa using hfold
      · rw [hgoal]; exact hc1
      · rw [hgoal]; exact hc2

/-- Claim C7: for every non-empty patch stream delivered in non-decreasing
image-index order (and a recognised measure), the last image is finalized
exactly once, by the same finalization routine (`finalizeImage`) used at
image boundaries, after the stream is exhausted: the pass returns the
boundary events followed by one final event whose image index is the last
patch's image index, and every boundary event carries a strictly smaller
image index. -/
theorem C7_last_image_finalized (E : Experiment) (ps : List Patch) (lastP : Patch)
    (hlast : ps.getLast? = some lastP)
    (hchain : List.Chain' (· ≤ ·) (ps.map Patch.imageIdx))
    (hm : measure_supported E) :
    ∃ evs st ev, run_experiment_set E ps = Except.ok (evs ++ [ev])
      ∧ runStream E ps = Except.ok st
      ∧ evs = st.events
      ∧ finalizeImage E lastP.imageIdx st.agg = Except.ok ev
      ∧ ev.image_idx = lastP.imageIdx
      ∧ ∀ e ∈ evs, e.image_idx < lastP.imageIdx := by
  obtain ⟨q, qs, rfl⟩ : ∃ q qs, ps = q :: qs := by
    cases ps with
    | nil => cases hlast
    | cons q qs => exact ⟨q, qs, rfl⟩
  have hchain0 : List.Chain' (· ≤ ·) (q.imageIdx :: (q :: qs).map Patch.imageIdx) := by
    rw [List.map_cons]
    exact List.chain'_cons.mpr ⟨le_refl _, by simpa using hchain⟩
  have h1 : (⟨-1, AggState.init 0 0, []⟩ : RunState).num_finished_images ≤ (q.imageIdx : ℤ) := by
    have : (0 : ℤ) ≤ (q.imageIdx : ℤ) := Int.natCast_nonneg _
    show (-1 : ℤ) ≤ _
    linarith
  obtain ⟨st, hfold, _, hevall⟩ :=
    run_aux E hm (q :: qs) ⟨-1, AggState.init 0 0, []⟩ q.imageIdx h1
      (by intro e he; cases he) hchain0
  have hlastidx : ((q :: qs).map Patch.imageIdx).getLastD q.imageIdx = lastP.imageIdx := by
    rw [List.getLastD_eq_getLast?, List.getLast?_map, hlast]
    rfl
  obtain ⟨ev, hev, hevidx⟩ := finalizeImage_ok E hm lastP.imageIdx st.agg
  refine ⟨st.events, st, ev, ?_, hfold, rfl, hev, hevidx, ?_⟩
  · have hrs : runStream E (q :: qs) = Except.ok st := hfold
    simp only [run_experiment_set, hrs, hlast, hev]
  · intro e he
    have := hevall e he
    rwa [hlastidx] at this

/-- Witness for C7 on a concrete two-image stream: image indices `0, 1`,
non-decreasing, with a recognised measure. -/
theorem C7_last_image_finalized_witness :
    twoImageStream.getLast? = some lastOfTwoImageStream
    ∧ List.Chain' (· ≤ ·) (twoImageStream.map Patch.imageIdx)
    ∧ measure_supported Ecx
    ∧ ∃ evs st ev, run_experiment_set Ecx twoImageStream = Except.ok (evs ++ [ev])
        ∧ runStream Ecx twoImageStream = Except.ok st
        ∧ evs = st.events
        ∧ finalizeImage Ecx lastOfTwoImageStream.imageIdx st.agg = Except.ok ev
        ∧ ev.image_idx = lastOfTwoImageStream.imageIdx
        ∧ ∀ e ∈ evs, e.image_idx < lastOfTwoImageStream.imageIdx := by
  have hch : List.Chain' (· ≤ ·) (twoImageStream.map Patch.imageIdx) := by
    simp [twoImageStream, List.chain'_cons]
  exact ⟨rfl, hch, Or.inl rfl,
    C7_last_image_finalized Ecx twoImageStream lastOfTwoImageStream rfl hch (Or.inl rfl)⟩
